import Mathlib

/-!
Verification of the numbered result cache and query engine of
`outlook_mcp_server.py` (outlook-mcp-server).

Shallow embedding conventions:
* COM mail items become `EmailItem`. A missing or falsy `ReceivedTime`
  (`hasattr(item, 'ReceivedTime') and item.ReceivedTime`) is `receivedTime = none`.
  A COM field access that raises during processing of the item is modelled by
  `accessError = some msg` (msg is the exception text `str(e)`).
* Python strings are Lean `String`; `str.lower()` is `lowerStr`, the substring
  operator `in` is `containsSub`.
* Timestamps are integers measured in days; `datetime.datetime.now()` is
  `Env.now` and `now - timedelta(days=days)` is `Env.now - days`. The
  `strftime` formatting of a timestamp is abstracted away: summaries and
  details carry the raw timestamp.
* The global dict `email_cache` is an association list `Cache` threaded
  through the tool functions; `dict.clear()` is starting from `[]`,
  `email_cache[i] = item` is consing, `n in email_cache` / `email_cache[n]`
  is `cacheLookup`.
* `safe_connect_to_outlook` and `get_folder_by_name` are external
  collaborators: `Env.connect` and `Env.getFolder` give their outcome.
  `folder.Items` after `Sort("[ReceivedTime]", True)` is `Folder.items`,
  already in the enumeration order the provider yields.
* A tool returning the Python dict `{"error": msg}` is the `error` constructor
  of its result type; the success dict is the `ok` constructor.
-/

/-- Indicates whether the first list of characters occurs at the start of the second. -/
def charsStartWith : List Char → List Char → Bool
  | [], _ => true
  | _ :: _, [] => false
  | a :: as, b :: bs => a == b && charsStartWith as bs

/-- Contiguous-sublist test on character lists: Python `needle in hay`. -/
def charsContain (needle : List Char) : List Char → Bool
  | [] => needle.isEmpty
  | c :: rest => charsStartWith needle (c :: rest) || charsContain needle rest

/-- Python `needle in hay` on strings. -/
def containsSub (needle hay : String) : Bool :=
  charsContain needle.data hay.data

/-- Python `s.lower()` (per-character lowering). -/
def lowerStr (s : String) : String :=
  String.mk (s.data.map Char.toLower)

/-- An attachment of a mail item: `attachment.FileName` / `attachment.Size`. -/
structure Attachment where
  fileName : String
  size : Int
  deriving DecidableEq, Repr

/-- A mail item as surfaced by the COM collection (see module conventions). -/
structure EmailItem where
  receivedTime : Option Int
  subject : Option String
  senderName : Option String
  senderEmail : Option String
  body : Option String
  unread : Bool
  importance : Option Int
  attachments : List Attachment
  accessError : Option String
  deriving DecidableEq, Repr

/-- The `email_data` dict built by the listing/search loops. -/
structure EmailSummary where
  id : String
  subject : String
  sender : String
  sender_email : String
  received_time : Int
  read_status : String
  has_attachments : Bool
  deriving DecidableEq, Repr

/-- The `{filename, size}` record appended per attachment in `get_email_by_number`. -/
structure AttachmentRecord where
  filename : String
  size : Int
  deriving DecidableEq, Repr

/-- The `email_details` dict built by `get_email_by_number`. -/
structure EmailDetail where
  subject : String
  sender : String
  sender_email : String
  received_time : Option Int
  body : String
  read_status : String
  importance : Int
  has_attachments : Bool
  attachments : List AttachmentRecord
  deriving DecidableEq, Repr

/-- The global `email_cache` dict: ordinal key to cached item. -/
abbrev Cache := List (Int × EmailItem)

/-- Python dict lookup `email_cache[n]` guarded by `n in email_cache`. -/
def cacheLookup : Cache → Int → Option EmailItem
  | [], _ => none
  | (k, v) :: rest, n => if n = k then some v else cacheLookup rest n

/-- A resolved folder: its display name and its items in enumeration order
after the descending `ReceivedTime` sort. -/
structure Folder where
  name : String
  items : List EmailItem

/-- External collaborators: outcome of `safe_connect_to_outlook`, of
`get_folder_by_name` per requested name, and the wall clock. -/
structure Env where
  connect : Except String Unit
  getFolder : Option String → Except String Folder
  now : Int

/-- Constant `MAX_DAYS = 30`. -/
def MAX_DAYS : Int := 30

/-- Message of the `ValueError` raised for an out-of-range `days`. -/
def daysErrMsg : String := "Days must be between 1 and " ++ toString MAX_DAYS

/-- Message of the `ValueError` raised for an empty search term. -/
def emptyTermMsg : String := "Search term cannot be empty"

/-- Error message returned by `get_email_by_number` on an empty cache. -/
def noListingMsg : String :=
  "No emails have been listed recently. Use list_recent_emails or search_emails first."

/-- Error message returned by `get_email_by_number` for a missing key. -/
def notFoundMsg (n : Int) : String :=
  "Email #" ++ toString n ++ " not found in the current listing."

/-- The `days` guard `not (days < 1 or days > MAX_DAYS)` (the `isinstance`
check is subsumed by the `Int` type). -/
def daysValid (d : Int) : Bool :=
  !(decide (d < 1) || decide (MAX_DAYS < d))

/-- The `email_data` summary built for item at enumeration position `i` with
received time `t`. -/
def mkSummary (i : Int) (item : EmailItem) (t : Int) : EmailSummary :=
  { id := toString i
    subject := item.subject.getD ""
    sender := item.senderName.getD ""
    sender_email := item.senderEmail.getD ""
    received_time := t
    read_status := if item.unread then "Unread" else "Read"
    has_attachments := !item.attachments.isEmpty }

/-- One `{filename, size}` attachment record. -/
def attRecord (a : Attachment) : AttachmentRecord :=
  { filename := a.fileName, size := a.size }

/-- The `email_details` dict of `get_email_by_number` for a cached item
(meaningful when the item raises no access error). -/
def mkDetail (item : EmailItem) : EmailDetail :=
  { subject := item.subject.getD ""
    sender := item.senderName.getD ""
    sender_email := item.senderEmail.getD ""
    received_time := item.receivedTime
    body := item.body.getD ""
    read_status := if item.unread then "Unread" else "Read"
    importance := item.importance.getD 1
    has_attachments := !item.attachments.isEmpty
    attachments :=
      if !item.attachments.isEmpty then item.attachments.map attRecord else [] }

/-- Match test of `outlook_search_emails`: the lowered term occurs in the
lowered subject, sender name, or body (each defaulted to `""`). -/
def matchesTerm (termLower : String) (item : EmailItem) : Bool :=
  containsSub termLower (lowerStr (item.subject.getD "")) ||
  containsSub termLower (lowerStr (item.senderName.getD "")) ||
  containsSub termLower (lowerStr (item.body.getD ""))

/-- The enumeration loop of `outlook_list_recent_emails`, started at
`enumerate` index `i`. Returns the cache entries added and either the summary
list or the text of an exception that escaped the loop (listing has no
per-item try, so an item access error aborts the whole operation; entries
cached before the failing item remain). -/
def processList (threshold : Int) : List EmailItem → Int → Cache × Except String (List EmailSummary)
  | [], _ => ([], Except.ok [])
  | item :: rest, i =>
    match item.receivedTime with
    | none => processList threshold rest (i + 1)
    | some t =>
      if t < threshold then ([], Except.ok [])
      else
        match item.accessError with
        | some e => ([], Except.error e)
        | none =>
          match processList threshold rest (i + 1) with
          | (c, Except.ok l) => ((i, item) :: c, Except.ok (mkSummary i item t :: l))
          | (c, Except.error e) => ((i, item) :: c, Except.error e)

/-- The enumeration loop of `outlook_search_emails`, started at `enumerate`
index `i`. Per-item access errors are caught, logged and skipped. -/
def processSearch (threshold : Int) (termLower : String) : List EmailItem → Int → Cache × List EmailSummary
  | [], _ => ([], [])
  | item :: rest, i =>
    match item.receivedTime with
    | none => processSearch threshold termLower rest (i + 1)
    | some t =>
      if t < threshold then ([], [])
      else
        match item.accessError with
        | some _ => processSearch threshold termLower rest (i + 1)
        | none =>
          if matchesTerm termLower item then
            match processSearch threshold termLower rest (i + 1) with
            | (c, l) => ((i, item) :: c, mkSummary i item t :: l)
          else processSearch threshold termLower rest (i + 1)

/-- Result dict of `outlook_list_recent_emails`. -/
inductive ListResult where
  | ok (folder : String) (total_emails : Nat) (emails : List EmailSummary)
  | error (msg : String)
  deriving DecidableEq, Repr

/-- Result dict of `outlook_search_emails`. -/
inductive SearchResult where
  | ok (folder : String) (search_term : String) (total_emails : Nat) (emails : List EmailSummary)
  | error (msg : String)
  deriving DecidableEq, Repr

/-- Result dict of `outlook_get_email_by_number`. -/
inductive GetResult where
  | ok (details : EmailDetail)
  | error (msg : String)
  deriving DecidableEq, Repr

/-- Tool `outlook_list_recent_emails`: validate `days`, connect, resolve the
folder, clear the cache, run the enumeration loop. The input cache is
returned untouched on any failure before the clear. -/
def outlook_list_recent_emails (env : Env) (days : Int) (folderName : Option String)
    (cache : Cache) : Cache × ListResult :=
  if daysValid days then
    match env.connect with
    | Except.error e => (cache, ListResult.error e)
    | Except.ok () =>
      match env.getFolder folderName with
      | Except.error e => (cache, ListResult.error e)
      | Except.ok folder =>
        match processList (env.now - days) folder.items 1 with
        | (c, Except.ok l) => (c, ListResult.ok folder.name l.length l)
        | (c, Except.error e) => (c, ListResult.error e)
  else (cache, ListResult.error daysErrMsg)

/-- Tool `outlook_search_emails`: validate the term then `days`, connect,
resolve the folder, clear the cache, run the enumeration loop with the
lowered term. -/
def outlook_search_emails (env : Env) (searchTerm : String) (days : Int)
    (folderName : Option String) (cache : Cache) : Cache × SearchResult :=
  if searchTerm = "" then (cache, SearchResult.error emptyTermMsg)
  else if daysValid days then
    match env.connect with
    | Except.error e => (cache, SearchResult.error e)
    | Except.ok () =>
      match env.getFolder folderName with
      | Except.error e => (cache, SearchResult.error e)
      | Except.ok folder =>
        match processSearch (env.now - days) (lowerStr searchTerm) folder.items 1 with
        | (c, l) => (c, SearchResult.ok folder.name searchTerm l.length l)
  else (cache, SearchResult.error daysErrMsg)

/-- Tool `outlook_get_email_by_number`: empty-cache check, membership check,
then detail extraction (which re-raises the item's access error if any,
caught into an error result). -/
def outlook_get_email_by_number (cache : Cache) (emailNumber : Int) : GetResult :=
  if cache.isEmpty then GetResult.error noListingMsg
  else
    match cacheLookup cache emailNumber with
    | none => GetResult.error (notFoundMsg emailNumber)
    | some item =>
      match item.accessError with
      | some e => GetResult.error e
      | none => GetResult.ok (mkDetail item)

/-- The items of a folder are sorted non-increasing by received time, every
item carrying a received time: each item's time bounds the times of all later
items. -/
def timesDesc : List EmailItem → Bool
  | [] => true
  | a :: rest =>
    (match a.receivedTime with
     | none => false
     | some ta =>
       rest.all fun b =>
         match b.receivedTime with
         | none => false
         | some tb => decide (tb ≤ ta)) && timesDesc rest

/-- Relation between a cache entry and the summary it was stored with, for
the search loop with threshold `th` and lowered term `tl`. -/
def RS (th : Int) (tl : String) (p : Int × EmailItem) (s : EmailSummary) : Prop :=
  ∃ t, p.2.receivedTime = some t ∧ ¬ t < th ∧ p.2.accessError = none ∧
    matchesTerm tl p.2 = true ∧ s = mkSummary p.1 p.2 t

/-- Relation between a cache entry and the summary it was stored with, for
the listing loop with threshold `th`. -/
def RL (th : Int) (p : Int × EmailItem) (s : EmailSummary) : Prop :=
  ∃ t, p.2.receivedTime = some t ∧ ¬ t < th ∧ p.2.accessError = none ∧
    s = mkSummary p.1 p.2 t

/-- True when a listing call gets past `days` validation, connection and
folder resolution, i.e. reaches the `email_cache.clear()` line. -/
def listGuardsPass (env : Env) (days : Int) (fname : Option String) : Bool :=
  daysValid days &&
  (match env.connect with
   | Except.ok _ =>
     match env.getFolder fname with
     | Except.ok _ => true
     | Except.error _ => false
   | Except.error _ => false)

/-- True when a search call reaches the `email_cache.clear()` line. -/
def searchGuardsPass (env : Env) (term : String) (days : Int) (fname : Option String) : Bool :=
  (term != "") && listGuardsPass env days fname

/-- Head character of a string, used to tell error messages apart. -/
def firstChar (s : String) : Option Char := s.data.head?

/-- Fixture: an in-window item that does not contain the term "report". -/
def itemA : EmailItem :=
  { receivedTime := some 100, subject := some "hello", senderName := some "alice",
    senderEmail := some "alice@example.com", body := some "greetings", unread := false,
    importance := some 1, attachments := [], accessError := none }

/-- Fixture: an in-window item that contains "report" in its subject. -/
def itemB : EmailItem :=
  { receivedTime := some 99, subject := some "Quarterly Report", senderName := some "bob",
    senderEmail := some "bob@example.com", body := some "see attachment", unread := true,
    importance := some 2, attachments := [{ fileName := "q.pdf", size := 2048 }],
    accessError := none }

/-- Fixture: an item 95 days before `env0.now`, outside a 7-day window. -/
def itemOld : EmailItem :=
  { receivedTime := some 5, subject := some "old report", senderName := some "carol",
    senderEmail := some "carol@example.com", body := some "stale", unread := false,
    importance := some 1, attachments := [], accessError := none }

/-- Fixture: an even older item placed after `itemOld`. -/
def itemOld2 : EmailItem :=
  { receivedTime := some 0, subject := some "older report", senderName := some "dave",
    senderEmail := some "dave@example.com", body := some "ancient", unread := true,
    importance := some 1, attachments := [], accessError := none }

/-- Fixture: an in-window item whose field access raises. -/
def itemBad : EmailItem :=
  { receivedTime := some 98, subject := some "broken", senderName := some "eve",
    senderEmail := some "eve@example.com", body := some "report inside", unread := false,
    importance := some 1, attachments := [], accessError := some "COM access error" }

/-- Fixture: an environment whose folder holds `itemA` then `itemB`. -/
def env0 : Env :=
  { connect := Except.ok ()
    getFolder := fun _ => Except.ok { name := "Inbox", items := [itemA, itemB] }
    now := 100 }

/-- Lookup in a cache whose keys are strictly increasing finds any member pair. -/
theorem cacheLookup_eq_of_pairwise (c : Cache) (k : Int) (v : EmailItem)
    (hp : List.Pairwise (fun a b : Int × EmailItem => a.1 < b.1) c)
    (hm : (k, v) ∈ c) : cacheLookup c k = some v := by
  induction c with
  | nil => cases hm
  | cons hd tl ih =>
    rcases List.pairwise_cons.mp hp with ⟨hlt, hp'⟩
    rcases List.mem_cons.mp hm with heq | hmem
    · subst heq
      simp [cacheLookup]
    · obtain ⟨k0, v0⟩ := hd
      have hne : k ≠ k0 := by
        have := hlt _ hmem
        simp at this
        omega
      simp [cacheLookup, hne]
      exact ih hp' hmem

theorem processSearch_key_lb (th : Int) (tl : String) :
    ∀ (items : List EmailItem) (i : Int) (p : Int × EmailItem),
      p ∈ (processSearch th tl items i).1 → i ≤ p.1 := by
  intro items
  induction items with
  | nil => intro i p hp; simp [processSearch] at hp
  | cons item rest ih =>
    intro i p hp
    rcases hrt : item.receivedTime with _ | t
    · simp [processSearch, hrt] at hp
      have := ih (i + 1) p hp
      omega
    · by_cases hbr : t < th
      · simp [processSearch, hrt, hbr] at hp
      · rcases herr : item.accessError with _ | e
        · by_cases hmt : matchesTerm tl item = true
          · rcases hrec : processSearch th tl rest (i + 1) with ⟨c, l⟩
            simp [processSearch, hrt, hbr, herr, hmt, hrec] at hp
            rcases hp with heq | hmem
            · simp [heq]
            · have := ih (i + 1) p (by rw [hrec]; exact hmem)
              omega
          · simp [processSearch, hrt, hbr, herr, hmt] at hp
            have := ih (i + 1) p hp
            omega
        · simp [processSearch, hrt, hbr, herr] at hp
          have := ih (i + 1) p hp
          omega

theorem processSearch_pairwise (th : Int) (tl : String) :
    ∀ (items : List EmailItem) (i : Int),
      List.Pairwise (fun a b : Int × EmailItem => a.1 < b.1) (processSearch th tl items i).1 := by
  intro items
  induction items with
  | nil => intro i; simp [processSearch]
  | cons item rest ih =>
    intro i
    rcases hrt : item.receivedTime with _ | t
    · simp [processSearch, hrt]; exact ih (i + 1)
    · by_cases hbr : t < th
      · simp [processSearch, hrt, hbr]
      · rcases herr : item.accessError with _ | e
        · by_cases hmt : matchesTerm tl item = true
          · rcases hrec : processSearch th tl rest (i + 1) with ⟨c, l⟩
            simp [processSearch, hrt, hbr, herr, hmt, hrec]
            constructor
            · intro a b hab
              have := processSearch_key_lb th tl rest (i + 1) (a, b) (by rw [hrec]; exact hab)
              simp at this
              omega
            · have := ih (i + 1); rw [hrec] at this; exact this
          · simp [processSearch, hrt, hbr, herr, hmt]; exact ih (i + 1)
        · simp [processSearch, hrt, hbr, herr]; exact ih (i + 1)

theorem processSearch_corr (th : Int) (tl : String) :
    ∀ (items : List EmailItem) (i : Int),
      List.Forall₂ (RS th tl) (processSearch th tl items i).1 (processSearch th tl items i).2 := by
  intro items
  induction items with
  | nil => intro i; simp [processSearch]
  | cons item rest ih =>
    intro i
    rcases hrt : item.receivedTime with _ | t
    · simp only [processSearch, hrt]; exact ih (i + 1)
    · by_cases hbr : t < th
      · simp [processSearch, hrt, hbr]
      · rcases herr : item.accessError with _ | e
        · by_cases hmt : matchesTerm tl item = true
          · rcases hrec : processSearch th tl rest (i + 1) with ⟨c, l⟩
            simp only [processSearch, hrt, herr, hmt, if_neg hbr, hrec]
            refine List.Forall₂.cons ⟨t, hrt, hbr, herr, hmt, rfl⟩ ?_
            have := ih (i + 1); rw [hrec] at this; exact this
          · simp only [processSearch, hrt, herr, hmt]
            simp only [if_neg hbr, Bool.false_eq_true, if_false]
            exact ih (i + 1)
        · simp only [processSearch, hrt, herr]
          simp only [if_neg hbr]
          exact ih (i + 1)

theorem processList_key_lb (th : Int) :
    ∀ (items : List EmailItem) (i : Int) (p : Int × EmailItem),
      p ∈ (processList th items i).1 → i ≤ p.1 := by
  intro items
  induction items with
  | nil => intro i p hp; simp [processList] at hp
  | cons item rest ih =>
    intro i p hp
    rcases hrt : item.receivedTime with _ | t
    · simp [processList, hrt] at hp
      have := ih (i + 1) p hp
      omega
    · by_cases hbr : t < th
      · simp [processList, hrt, hbr] at hp
      · rcases herr : item.accessError with _ | e
        · rcases hrec : processList th rest (i + 1) with ⟨c, r⟩
          rcases r with l | e
          all_goals {
            simp [processList, hrt, hbr, herr, hrec] at hp
            rcases hp with heq | hmem
            · simp [heq]
            · have := ih (i + 1) p (by rw [hrec]; exact hmem)
              omega
          }
        · simp [processList, hrt, hbr, herr] at hp

theorem processList_pairwise (th : Int) :
    ∀ (items : List EmailItem) (i : Int),
      List.Pairwise (fun a b : Int × EmailItem => a.1 < b.1) (processList th items i).1 := by
  intro items
  induction items with
  | nil => intro i; simp [processList]
  | cons item rest ih =>
    intro i
    rcases hrt : item.receivedTime with _ | t
    · simp [processList, hrt]; exact ih (i + 1)
    · by_cases hbr : t < th
      · simp [processList, hrt, hbr]
      · rcases herr : item.accessError with _ | e
        · rcases hrec : processList th rest (i + 1) with ⟨c, r⟩
          rcases r with l | e
          all_goals {
            simp [processList, hrt, hbr, herr, hrec]
            constructor
            · intro a b hab
              have := processList_key_lb th rest (i + 1) (a, b) (by rw [hrec]; exact hab)
              simp at this
              omega
            · have := ih (i + 1); rw [hrec] at this; exact this
          }
        · simp [processList, hrt, hbr, herr]

theorem processList_corr (th : Int) :
    ∀ (items : List EmailItem) (i : Int) (c : Cache) (l : List EmailSummary),
      processList th items i = (c, Except.ok l) → List.Forall₂ (RL th) c l := by
  intro items
  induction items with
  | nil =>
    intro i c l h
    simp only [processList, Prod.mk.injEq, Except.ok.injEq] at h
    rcases h with ⟨h1, h2⟩
    subst h1; subst h2
    exact List.Forall₂.nil
  | cons item rest ih =>
    intro i c l h
    rcases hrt : item.receivedTime with _ | t
    · simp only [processList, hrt] at h
      exact ih (i + 1) c l h
    · by_cases hbr : t < th
      · simp only [processList, hrt, if_pos hbr, Prod.mk.injEq, Except.ok.injEq] at h
        rcases h with ⟨h1, h2⟩
        subst h1; subst h2
        exact List.Forall₂.nil
      · rcases herr : item.accessError with _ | e
        · rcases hrec : processList th rest (i + 1) with ⟨c0, r⟩
          rcases r with e0 | l0
          · simp [processList, hrt, herr, if_neg hbr, hrec] at h
          · simp only [processList, hrt, herr, if_neg hbr, hrec, Prod.mk.injEq,
              Except.ok.injEq] at h
            rcases h with ⟨h1, h2⟩
            subst h1; subst h2
            exact List.Forall₂.cons ⟨t, hrt, hbr, herr, rfl⟩ (ih (i + 1) c0 l0 hrec)
        · simp [processList, hrt, herr, if_neg hbr] at h

theorem forall2_exists_left {α β : Type} {R : α → β → Prop} :
    ∀ {l1 : List α} {l2 : List β}, List.Forall₂ R l1 l2 → ∀ b ∈ l2, ∃ a ∈ l1, R a b := by
  intro l1 l2 h
  induction h with
  | nil => intro b hb; cases hb
  | cons hr _ ih =>
    intro b hb
    rcases List.mem_cons.mp hb with rfl | hb'
    · exact ⟨_, List.mem_cons_self _ _, hr⟩
    · rcases ih b hb' with ⟨a, ha, har⟩
      exact ⟨a, List.mem_cons_of_mem _ ha, har⟩

theorem forall2_exists_right {α β : Type} {R : α → β → Prop} :
    ∀ {l1 : List α} {l2 : List β}, List.Forall₂ R l1 l2 → ∀ a ∈ l1, ∃ b ∈ l2, R a b := by
  intro l1 l2 h
  induction h with
  | nil => intro a ha; cases ha
  | cons hr _ ih =>
    intro a ha
    rcases List.mem_cons.mp ha with rfl | ha'
    · exact ⟨_, List.mem_cons_self _ _, hr⟩
    · rcases ih a ha' with ⟨b, hb, hbr⟩
      exact ⟨b, List.mem_cons_of_mem _ hb, hbr⟩

theorem processList_break (th : Int) (item : EmailItem) (t : Int)
    (ht : item.receivedTime = some t) (hlt : t < th) :
    ∀ (pre post : List EmailItem) (i : Int),
      processList th (pre ++ item :: post) i = processList th pre i := by
  intro pre
  induction pre with
  | nil =>
    intro post i
    simp [processList, ht, hlt]
  | cons a rest ih =>
    intro post i
    rcases hrt : a.receivedTime with _ | ta
    · simp only [List.cons_append, processList, hrt]
      exact ih post (i + 1)
    · by_cases hbr : ta < th
      · simp [List.cons_append, processList, hrt, hbr]
      · rcases herr : a.accessError with _ | e
        · simp only [List.cons_append, processList, hrt, herr, if_neg hbr,
            List.append_eq, ih post (i + 1)]
        · simp [List.cons_append, processList, hrt, hbr, herr]

theorem processSearch_break (th : Int) (tl : String) (item : EmailItem) (t : Int)
    (ht : item.receivedTime = some t) (hlt : t < th) :
    ∀ (pre post : List EmailItem) (i : Int),
      processSearch th tl (pre ++ item :: post) i = processSearch th tl pre i := by
  intro pre
  induction pre with
  | nil =>
    intro post i
    simp [processSearch, ht, hlt]
  | cons a rest ih =>
    intro post i
    rcases hrt : a.receivedTime with _ | ta
    · simp only [List.cons_append, processSearch, hrt]
      exact ih post (i + 1)
    · by_cases hbr : ta < th
      · simp [List.cons_append, processSearch, hrt, hbr]
      · rcases herr : a.accessError with _ | e
        · by_cases hmt : matchesTerm tl a = true
          · simp only [List.cons_append, processSearch, hrt, herr, hmt, if_neg hbr,
              List.append_eq, ih post (i + 1)]
          · simp only [List.cons_append, processSearch, hrt, herr, if_neg hbr,
              Bool.not_eq_true] at hmt ⊢
            simp only [hmt]
            exact ih post (i + 1)
        · simp only [List.cons_append, processSearch, hrt, herr, if_neg hbr]
          exact ih post (i + 1)

theorem timesDesc_cons {a : EmailItem} {rest : List EmailItem}
    (h : timesDesc (a :: rest) = true) :
    ∃ ta, a.receivedTime = some ta ∧
      (∀ b ∈ rest, ∃ tb, b.receivedTime = some tb ∧ tb ≤ ta) ∧
      timesDesc rest = true := by
  rcases hrt : a.receivedTime with _ | ta
  · simp [timesDesc, hrt] at h
  · refine ⟨ta, rfl, ?_, ?_⟩
    · intro b hb
      simp only [timesDesc, hrt, Bool.and_eq_true, List.all_eq_true] at h
      have := h.1 b hb
      rcases hbt : b.receivedTime with _ | tb
      · rw [hbt] at this; simp at this
      · rw [hbt] at this; simp at this; exact ⟨tb, rfl, this⟩
    · simp only [timesDesc, hrt, Bool.and_eq_true] at h
      exact h.2

theorem processSearch_complete (th : Int) (tl : String) (item : EmailItem) (t : Int)
    (ht : item.receivedTime = some t) (hge : ¬ t < th) (herr : item.accessError = none)
    (hmt : matchesTerm tl item = true) :
    ∀ (items : List EmailItem) (i : Int), timesDesc items = true → item ∈ items →
      ∃ k, mkSummary k item t ∈ (processSearch th tl items i).2 := by
  intro items
  induction items with
  | nil => intro i _ hmem; cases hmem
  | cons a rest ih =>
    intro i hdesc hmem
    rcases timesDesc_cons hdesc with ⟨ta, hat, hbd, hdesc'⟩
    rcases List.mem_cons.mp hmem with rfl | hmem'
    · rw [hat] at ht
      injection ht with ht'
      subst ht'
      simp only [processSearch, hat, if_neg hge, herr, hmt]
      rcases hrec : processSearch th tl rest (i + 1) with ⟨c, l⟩
      exact ⟨i, List.mem_cons_self _ _⟩
    · have hta_ge : ¬ ta < th := by
        rcases hbd item hmem' with ⟨tb, htb, hle⟩
        rw [ht] at htb
        injection htb with htb'
        omega
      rcases herra : a.accessError with _ | e
      · by_cases hmta : matchesTerm tl a = true
        · rcases hrec : processSearch th tl rest (i + 1) with ⟨c, l⟩
          rcases ih (i + 1) hdesc' hmem' with ⟨k, hk⟩
          rw [hrec] at hk
          refine ⟨k, ?_⟩
          simp only [processSearch, hat, if_neg hta_ge, herra, hmta, hrec]
          exact List.mem_cons_of_mem _ hk
        · rcases ih (i + 1) hdesc' hmem' with ⟨k, hk⟩
          refine ⟨k, ?_⟩
          simp only [processSearch, hat, if_neg hta_ge, herra, Bool.not_eq_true] at hmta ⊢
          simp only [hmta]
          exact hk
      · rcases ih (i + 1) hdesc' hmem' with ⟨k, hk⟩
        refine ⟨k, ?_⟩
        simp only [processSearch, hat, if_neg hta_ge, herra]
        exact hk

theorem search_ok_inv (env : Env) (term : String) (days : Int) (fname : Option String)
    (cache c' : Cache) (f st : String) (tot : Nat) (sums : List EmailSummary)
    (h : outlook_search_emails env term days fname cache = (c', SearchResult.ok f st tot sums)) :
    ∃ folder, env.getFolder fname = Except.ok folder ∧ env.connect = Except.ok () ∧
      daysValid days = true ∧ term ≠ "" ∧
      processSearch (env.now - days) (lowerStr term) folder.items 1 = (c', sums) ∧
      f = folder.name ∧ st = term ∧ tot = sums.length := by
  by_cases hterm : term = ""
  · simp [outlook_search_emails, hterm] at h
  · by_cases hdv : daysValid days = true
    · rcases hconn : env.connect with e | u
      · simp [outlook_search_emails, hterm, hdv, hconn] at h
      · rcases hfold : env.getFolder fname with e | folder
        · simp [outlook_search_emails, hterm, hdv, hconn, hfold] at h
        · rcases hproc : processSearch (env.now - days) (lowerStr term) folder.items 1 with ⟨c0, l0⟩
          simp only [outlook_search_emails, if_neg hterm, if_pos hdv, hconn, hfold, hproc,
            Prod.mk.injEq, SearchResult.ok.injEq] at h
          rcases h with ⟨h1, h2, h3, h4, h5⟩
          exact ⟨folder, rfl, hconn ▸ rfl, hdv, hterm, by rw [hproc, h1, h5],
            h2.symm, h3.symm, by rw [← h4, h5]⟩
    · simp [outlook_search_emails, hterm, hdv] at h

theorem list_ok_inv (env : Env) (days : Int) (fname : Option String)
    (cache c' : Cache) (f : String) (tot : Nat) (sums : List EmailSummary)
    (h : outlook_list_recent_emails env days fname cache = (c', ListResult.ok f tot sums)) :
    ∃ folder, env.getFolder fname = Except.ok folder ∧ env.connect = Except.ok () ∧
      daysValid days = true ∧
      processList (env.now - days) folder.items 1 = (c', Except.ok sums) ∧
      f = folder.name ∧ tot = sums.length := by
  by_cases hdv : daysValid days = true
  · rcases hconn : env.connect with e | u
    · simp [outlook_list_recent_emails, hdv, hconn] at h
    · rcases hfold : env.getFolder fname with e | folder
      · simp [outlook_list_recent_emails, hdv, hconn, hfold] at h
      · rcases hproc : processList (env.now - days) folder.items 1 with ⟨c0, r⟩
        rcases r with e0 | l0
        · simp [outlook_list_recent_emails, hdv, hconn, hfold, hproc] at h
        · simp only [outlook_list_recent_emails, if_pos hdv, hconn, hfold, hproc,
            Prod.mk.injEq, ListResult.ok.injEq] at h
          rcases h with ⟨h1, h2, h3, h4⟩
          exact ⟨folder, rfl, hconn ▸ rfl, hdv, by rw [hproc, h1, h4],
            h2.symm, by rw [← h3, h4]⟩
  · simp [outlook_list_recent_emails, hdv] at h

theorem noListing_ne_notFound (n : Int) : noListingMsg ≠ notFoundMsg n := by
  intro h
  have h2 : firstChar noListingMsg = firstChar (notFoundMsg n) := by rw [h]
  have hL : firstChar noListingMsg = some 'N' := rfl
  have hR : firstChar (notFoundMsg n) = some 'E' := rfl
  rw [hL, hR] at h2
  simp at h2

theorem get_notFound (cache : Cache) (n : Int) (hne : cache ≠ [])
    (hl : cacheLookup cache n = none) :
    outlook_get_email_by_number cache n = GetResult.error (notFoundMsg n) := by
  have hie : cache.isEmpty = false := by
    cases cache with
    | nil => exact absurd rfl hne
    | cons a l => rfl
  simp [outlook_get_email_by_number, hie, hl]

theorem get_ok_of_lookup (cache : Cache) (n : Int) (item : EmailItem)
    (hl : cacheLookup cache n = some item) (herr : item.accessError = none) :
    outlook_get_email_by_number cache n = GetResult.ok (mkDetail item) := by
  have hne : cache ≠ [] := by
    intro hc; rw [hc] at hl; simp [cacheLookup] at hl
  have hie : cache.isEmpty = false := by
    cases cache with
    | nil => exact absurd rfl hne
    | cons a l => rfl
  simp [outlook_get_email_by_number, hie, hl, herr]

/-- C1 counterexample: a search over `[itemA, itemB]` where only the second
item matches returns N = 1 summary, yet the single cache key is 2, the
enumeration position: ordinal 1 (inside 1..N) is rejected as not found while
ordinal N + 1 = 2 resolves, refuting the claim that keys are exactly 1..N. -/
theorem search_ordinals_cex :
    (outlook_search_emails env0 "report" 7 none []).2
      = SearchResult.ok "Inbox" "report" 1 [mkSummary 2 itemB 99] ∧
    outlook_get_email_by_number (outlook_search_emails env0 "report" 7 none []).1 1
      = GetResult.error (notFoundMsg 1) ∧
    outlook_get_email_by_number (outlook_search_emails env0 "report" 7 none []).1 2
      = GetResult.ok (mkDetail itemB) := by
  refine ⟨by decide, by decide, by decide⟩

/-- C1 (amended): after a successful `list_recent_emails` or `search_emails`
call the cache holds exactly one entry per returned summary, keyed by the
item's 1-based enumeration position with keys strictly increasing (positions
of skipped or non-matching items are omitted, so keys need not be the
contiguous range 1..N); every stored key resolves via `get_email_by_number`,
and every key absent from the non-empty cache returns the not-found error. -/
theorem cache_keys_resolve (env : Env) (term : String) (days : Int)
    (fname : Option String) (cache : Cache) :
    (∀ c' f st tot sums,
      outlook_search_emails env term days fname cache = (c', SearchResult.ok f st tot sums) →
      c'.length = sums.length ∧
      List.Pairwise (fun a b : Int × EmailItem => a.1 < b.1) c' ∧
      (∀ p ∈ c', outlook_get_email_by_number c' p.1 = GetResult.ok (mkDetail p.2)) ∧
      (∀ n : Int, c' ≠ [] → cacheLookup c' n = none →
        outlook_get_email_by_number c' n = GetResult.error (notFoundMsg n))) ∧
    (∀ c' f tot sums,
      outlook_list_recent_emails env days fname cache = (c', ListResult.ok f tot sums) →
      c'.length = sums.length ∧
      List.Pairwise (fun a b : Int × EmailItem => a.1 < b.1) c' ∧
      (∀ p ∈ c', outlook_get_email_by_number c' p.1 = GetResult.ok (mkDetail p.2)) ∧
      (∀ n : Int, c' ≠ [] → cacheLookup c' n = none →
        outlook_get_email_by_number c' n = GetResult.error (notFoundMsg n))) := by
  constructor
  · intro c' f st tot sums h
    rcases search_ok_inv env term days fname cache c' f st tot sums h with
      ⟨folder, hfold, hconn, hdv, hterm, hproc, hf, hst, htot⟩
    have hcorr := processSearch_corr (env.now - days) (lowerStr term) folder.items 1
    rw [hproc] at hcorr
    have hpw := processSearch_pairwise (env.now - days) (lowerStr term) folder.items 1
    rw [hproc] at hpw
    refine ⟨hcorr.length_eq, hpw, ?_, ?_⟩
    · intro p hp
      rcases forall2_exists_right hcorr p hp with ⟨s, _, t, hrt, _, herr, _, _⟩
      have hlk : cacheLookup c' p.1 = some p.2 :=
        cacheLookup_eq_of_pairwise c' p.1 p.2 hpw hp
      exact get_ok_of_lookup c' p.1 p.2 hlk herr
    · intro n hne hl
      exact get_notFound c' n hne hl
  · intro c' f tot sums h
    rcases list_ok_inv env days fname cache c' f tot sums h with
      ⟨folder, hfold, hconn, hdv, hproc, hf, htot⟩
    have hcorr := processList_corr (env.now - days) folder.items 1 c' sums hproc
    have hpw := processList_pairwise (env.now - days) folder.items 1
    rw [hproc] at hpw
    refine ⟨hcorr.length_eq, hpw, ?_, ?_⟩
    · intro p hp
      rcases forall2_exists_right hcorr p hp with ⟨s, _, t, hrt, _, herr, _⟩
      have hlk : cacheLookup c' p.1 = some p.2 :=
        cacheLookup_eq_of_pairwise c' p.1 p.2 hpw hp
      exact get_ok_of_lookup c' p.1 p.2 hlk herr
    · intro n hne hl
      exact get_notFound c' n hne hl

/-- Witness for `cache_keys_resolve` at a concrete successful search call. -/
theorem cache_keys_resolve_witness :
    outlook_get_email_by_number [(2, itemB)] 2 = GetResult.ok (mkDetail itemB) ∧
    outlook_get_email_by_number [(2, itemB)] 1 = GetResult.error (notFoundMsg 1) := by
  have h := (cache_keys_resolve env0 "report" 7 none []).1 [(2, itemB)] "Inbox" "report" 1
    [mkSummary 2 itemB 99] (by decide)
  exact ⟨h.2.2.1 (2, itemB) (by decide), h.2.2.2 1 (by decide) (by decide)⟩

/-- C2 counterexample: a `list_recent_emails` call that fails `days`
validation (days = 0) returns an error with the previous cache generation
fully intact — entry 1 still resolves — refuting the claim that the previous
generation is discarded on every invocation. -/
theorem cache_survives_failed_validation_cex :
    outlook_list_recent_emails env0 0 none [(1, itemA)]
      = ([(1, itemA)], ListResult.error daysErrMsg) ∧
    cacheLookup (outlook_list_recent_emails env0 0 none [(1, itemA)]).1 1 = some itemA := by
  refine ⟨by decide, by decide⟩

/-- C2 (amended): the previous cache generation is discarded, in full and
before any new entry is added, exactly when a listing/search call passes
argument validation, connection, and folder resolution (the resulting cache
is then independent of the prior one); calls failing any of those steps
leave the previous generation untouched. -/
theorem guarded_cache_reset (env : Env) (term : String) (days : Int)
    (fname : Option String) (cache : Cache) :
    ((outlook_list_recent_emails env days fname cache).1
      = if listGuardsPass env days fname then (outlook_list_recent_emails env days fname []).1
        else cache) ∧
    ((outlook_search_emails env term days fname cache).1
      = if searchGuardsPass env term days fname then
          (outlook_search_emails env term days fname []).1
        else cache) := by
  constructor
  · by_cases hdv : daysValid days = true
    · rcases hconn : env.connect with e | u
      · simp [outlook_list_recent_emails, listGuardsPass, hdv, hconn]
      · rcases hfold : env.getFolder fname with e | folder
        · simp [outlook_list_recent_emails, listGuardsPass, hdv, hconn, hfold]
        · rcases hproc : processList (env.now - days) folder.items 1 with ⟨c0, r⟩
          rcases r with e0 | l0 <;>
            simp [outlook_list_recent_emails, listGuardsPass, hdv, hconn, hfold, hproc]
    · simp [outlook_list_recent_emails, listGuardsPass, hdv]
  · by_cases hterm : term = ""
    · simp [outlook_search_emails, searchGuardsPass, hterm]
    · by_cases hdv : daysValid days = true
      · rcases hconn : env.connect with e | u
        · simp [outlook_search_emails, searchGuardsPass, listGuardsPass, hterm, hdv, hconn]
        · rcases hfold : env.getFolder fname with e | folder
          · simp [outlook_search_emails, searchGuardsPass, listGuardsPass, hterm, hdv, hconn,
              hfold]
          · rcases hproc : processSearch (env.now - days) (lowerStr term) folder.items 1
              with ⟨c0, l0⟩
            simp [outlook_search_emails, searchGuardsPass, listGuardsPass, hterm, hdv, hconn,
              hfold, hproc]
      · simp [outlook_search_emails, searchGuardsPass, listGuardsPass, hterm, hdv]

/-- C3 (confirmed): on an item sequence sorted non-increasing by received
time, both enumeration loops stop at the first item whose received time is
strictly before the threshold: that item and every item after it contribute
no summary and no cache entry, whatever they contain. -/
theorem enumeration_stops_at_old_item (th : Int) (tl : String)
    (pre post : List EmailItem) (item : EmailItem) (t i : Int)
    (hsorted : timesDesc (pre ++ item :: post) = true)
    (ht : item.receivedTime = some t) (hlt : t < th) :
    processList th (pre ++ item :: post) i = processList th pre i ∧
    processSearch th tl (pre ++ item :: post) i = processSearch th tl pre i :=
  ⟨processList_break th item t ht hlt pre post i,
   processSearch_break th tl item t ht hlt pre post i⟩

/-- Witness for `enumeration_stops_at_old_item` on a concrete sorted folder. -/
theorem enumeration_stops_at_old_item_witness :
    processList 93 ([itemA] ++ itemOld :: [itemOld2]) 1 = processList 93 [itemA] 1 ∧
    processSearch 93 "report" ([itemA] ++ itemOld :: [itemOld2]) 1
      = processSearch 93 "report" [itemA] 1 :=
  enumeration_stops_at_old_item 93 "report" [itemA] [itemOld2] itemOld 5 1
    (by decide) (by decide) (by decide)

/-- C4 (confirmed): for a successful search with a non-empty term over a
folder sorted non-increasing by received time, every returned summary comes
from a cached item matching the term case-insensitively in subject, sender
name, or body; conversely every in-window item matching the term whose field
access raises no error appears among the summaries. -/
theorem search_filter_sound_complete (env : Env) (term : String) (days : Int)
    (fname : Option String) (cache c' : Cache) (f st : String) (tot : Nat)
    (sums : List EmailSummary) (folder : Folder)
    (hcall : outlook_search_emails env term days fname cache
      = (c', SearchResult.ok f st tot sums))
    (hfold : env.getFolder fname = Except.ok folder)
    (hsorted : timesDesc folder.items = true) :
    (∀ s ∈ sums, ∃ p ∈ c', matchesTerm (lowerStr term) p.2 = true ∧
      ∃ t, p.2.receivedTime = some t ∧ ¬ t < env.now - days ∧ s = mkSummary p.1 p.2 t) ∧
    (∀ item ∈ folder.items, ∀ t : Int, item.receivedTime = some t →
      ¬ t < env.now - days → item.accessError = none →
      matchesTerm (lowerStr term) item = true →
      ∃ k : Int, mkSummary k item t ∈ sums) := by
  rcases search_ok_inv env term days fname cache c' f st tot sums hcall with
    ⟨folder', hfold', hconn, hdv, hterm, hproc, _, _, _⟩
  rw [hfold] at hfold'
  injection hfold' with hfeq
  subst hfeq
  constructor
  · have hcorr := processSearch_corr (env.now - days) (lowerStr term) folder.items 1
    rw [hproc] at hcorr
    intro s hs
    rcases forall2_exists_left hcorr s hs with ⟨p, hp, t, hrt, hlt, herr, hmt, heq⟩
    exact ⟨p, hp, hmt, t, hrt, hlt, heq⟩
  · intro item hmem t hrt hge herr hmt
    rcases processSearch_complete (env.now - days) (lowerStr term) item t hrt hge herr hmt
      folder.items 1 hsorted hmem with ⟨k, hk⟩
    rw [hproc] at hk
    exact ⟨k, hk⟩

/-- Witness for `search_filter_sound_complete`: `itemB` appears in the results. -/
theorem search_filter_sound_complete_witness :
    ∃ k : Int, mkSummary k itemB 99 ∈ [mkSummary 2 itemB 99] := by
  have h := search_filter_sound_complete env0 "report" 7 none [] [(2, itemB)]
    "Inbox" "report" 1 [mkSummary 2 itemB 99]
    { name := "Inbox", items := [itemA, itemB] } (by decide) rfl (by decide)
  exact h.2 itemB (by decide) 99 (by decide) (by decide) (by decide) (by decide)

/-- C5 (confirmed): `get_email_by_number` on the never-populated (empty)
cache returns the no-prior-listing error for every number; on a non-empty
cache lacking the key it returns the not-found error; and the two messages
differ for every number. Both are returned as error results, not raised. -/
theorem getEmail_error_distinction :
    (∀ n : Int, outlook_get_email_by_number [] n = GetResult.error noListingMsg) ∧
    (∀ (cache : Cache) (n : Int), cache ≠ [] → cacheLookup cache n = none →
      outlook_get_email_by_number cache n = GetResult.error (notFoundMsg n)) ∧
    (∀ n : Int, noListingMsg ≠ notFoundMsg n) := by
  refine ⟨?_, ?_, noListing_ne_notFound⟩
  · intro n
    simp [outlook_get_email_by_number]
  · intro cache n hne hl
    exact get_notFound cache n hne hl

/-- Witness for `getEmail_error_distinction` at concrete caches and numbers. -/
theorem getEmail_error_distinction_witness :
    outlook_get_email_by_number [] 3 = GetResult.error noListingMsg ∧
    outlook_get_email_by_number [(1, itemA)] 5 = GetResult.error (notFoundMsg 5) ∧
    noListingMsg ≠ notFoundMsg 5 := by
  have h := getEmail_error_distinction
  exact ⟨h.1 3, h.2.1 [(1, itemA)] 5 (by decide) (by decide), h.2.2 5⟩

/-- C6 (confirmed): for every `days` outside the inclusive range 1..30 both
tools return an error-dictionary result with the input cache unchanged
(search reports the empty-term error first when the term is empty, an error
result all the same), and the validation predicate accepts 1 and 30. -/
theorem days_range_validation (env : Env) (fname : Option String) (cache : Cache)
    (days : Int) (term : String) (hd : days < 1 ∨ MAX_DAYS < days) :
    outlook_list_recent_emails env days fname cache = (cache, ListResult.error daysErrMsg) ∧
    (term = "" → outlook_search_emails env term days fname cache
      = (cache, SearchResult.error emptyTermMsg)) ∧
    (term ≠ "" → outlook_search_emails env term days fname cache
      = (cache, SearchResult.error daysErrMsg)) ∧
    daysValid 1 = true ∧ daysValid 30 = true := by
  have hdv : daysValid days = false := by
    simp [daysValid]
    omega
  refine ⟨?_, ?_, ?_, by decide, by decide⟩
  · simp [outlook_list_recent_emails, hdv]
  · intro hterm
    simp [outlook_search_emails, hterm]
  · intro hterm
    simp [outlook_search_emails, hterm, hdv]

/-- Witness for `days_range_validation` at days = 31. -/
theorem days_range_validation_witness :
    outlook_list_recent_emails env0 31 none [] = ([], ListResult.error daysErrMsg) ∧
    outlook_search_emails env0 "report" 31 none [] = ([], SearchResult.error daysErrMsg) := by
  have h := days_range_validation env0 none [] 31 "report" (Or.inr (by decide))
  exact ⟨h.1, h.2.2.1 (by decide)⟩

/-- C7 (confirmed): `search_emails` with an empty search term returns the
empty-term error result for every environment, day count, folder name and
cache — never a success result. -/
theorem empty_search_term_rejected (env : Env) (days : Int) (fname : Option String)
    (cache : Cache) :
    outlook_search_emails env "" days fname cache = (cache, SearchResult.error emptyTermMsg) := by
  simp [outlook_search_emails]

/-- C8 (confirmed): an in-window item whose field access raises during
search is skipped while enumeration continues at the next index, and a
search call that passes its guards always returns a success result holding
the surviving matches — item access errors never propagate to the caller. -/
theorem search_access_error_skipped (th : Int) (tl : String) (i t : Int)
    (bad : EmailItem) (rest : List EmailItem) (msg : String)
    (ht : bad.receivedTime = some t) (hge : ¬ t < th) (herr : bad.accessError = some msg) :
    processSearch th tl (bad :: rest) i = processSearch th tl rest (i + 1) ∧
    ∀ (env : Env) (term : String) (days : Int) (fname : Option String) (cache : Cache)
      (folder : Folder), term ≠ "" → daysValid days = true →
      env.connect = Except.ok () → env.getFolder fname = Except.ok folder →
      outlook_search_emails env term days fname cache =
        ((processSearch (env.now - days) (lowerStr term) folder.items 1).1,
         SearchResult.ok folder.name term
           (processSearch (env.now - days) (lowerStr term) folder.items 1).2.length
           (processSearch (env.now - days) (lowerStr term) folder.items 1).2) := by
  constructor
  · simp [processSearch, ht, if_neg hge, herr]
  · intro env term days fname cache folder hterm hdv hconn hfold
    rcases hproc : processSearch (env.now - days) (lowerStr term) folder.items 1 with ⟨c0, l0⟩
    simp [outlook_search_emails, hterm, hdv, hconn, hfold, hproc]

/-- Witness for `search_access_error_skipped` at a concrete failing item. -/
theorem search_access_error_skipped_witness :
    processSearch 93 "report" [itemBad, itemB] 1 = processSearch 93 "report" [itemB] 2 := by
  have h := search_access_error_skipped 93 "report" 1 98 itemBad [itemB] "COM access error"
    (by decide) (by decide) (by decide)
  exact h.1

/-- C9 (confirmed): `get_email_by_number` for a cached id returns the item's
detail; with zero attachments it has `has_attachments = false` and an empty
attachment list, and in general one {filename, size} record per attachment
in provider order. -/
theorem attachment_detail_records (cache : Cache) (n : Int) (item : EmailItem)
    (hl : cacheLookup cache n = some item) (herr : item.accessError = none) :
    outlook_get_email_by_number cache n = GetResult.ok (mkDetail item) ∧
    (item.attachments = [] → (mkDetail item).has_attachments = false ∧
      (mkDetail item).attachments = []) ∧
    (mkDetail item).attachments.length = item.attachments.length ∧
    ∀ j : Nat, (mkDetail item).attachments[j]? = (item.attachments[j]?).map attRecord := by
  refine ⟨get_ok_of_lookup cache n item hl herr, ?_, ?_, ?_⟩
  · intro hatt
    simp [mkDetail, hatt]
  · rcases hatt : item.attachments with _ | ⟨a, l⟩
    · simp [mkDetail, hatt]
    · simp [mkDetail, hatt]
  · intro j
    rcases hatt : item.attachments with _ | ⟨a, l⟩
    · simp [mkDetail, hatt]
    · simp [mkDetail, hatt, ← List.map_cons, List.getElem?_map]

/-- Witness for `attachment_detail_records` on an attachment-free item. -/
theorem attachment_detail_records_witness :
    outlook_get_email_by_number [(1, itemA)] 1 = GetResult.ok (mkDetail itemA) ∧
    (mkDetail itemA).has_attachments = false ∧ (mkDetail itemA).attachments = [] := by
  have h := attachment_detail_records [(1, itemA)] 1 itemA (by decide) (by decide)
  exact ⟨h.1, (h.2.1 (by decide)).1, (h.2.1 (by decide)).2⟩

/-- C10 (confirmed): every summary returned by a successful listing or
search carries as `id` the decimal string of the integer key under which the
same message is stored, and `get_email_by_number` at that key returns the
detail of that very message. -/
theorem summary_id_is_cache_key (env : Env) (term : String) (days : Int)
    (fname : Option String) (cache c' : Cache) (f st f2 : String) (tot tot2 : Nat)
    (sums : List EmailSummary)
    (h : outlook_search_emails env term days fname cache = (c', SearchResult.ok f st tot sums) ∨
         outlook_list_recent_emails env days fname cache = (c', ListResult.ok f2 tot2 sums)) :
    ∀ s ∈ sums, ∃ (k : Int) (item : EmailItem) (t : Int),
      s.id = toString k ∧ cacheLookup c' k = some item ∧ s = mkSummary k item t ∧
      outlook_get_email_by_number c' k = GetResult.ok (mkDetail item) := by
  rcases h with h | h
  · rcases search_ok_inv env term days fname cache c' f st tot sums h with
      ⟨folder, hfold, hconn, hdv, hterm, hproc, _, _, _⟩
    have hcorr := processSearch_corr (env.now - days) (lowerStr term) folder.items 1
    rw [hproc] at hcorr
    have hpw := processSearch_pairwise (env.now - days) (lowerStr term) folder.items 1
    rw [hproc] at hpw
    intro s hs
    rcases forall2_exists_left hcorr s hs with ⟨p, hp, t, hrt, hlt, herr, hmt, heq⟩
    have hlk : cacheLookup c' p.1 = some p.2 :=
      cacheLookup_eq_of_pairwise c' p.1 p.2 hpw hp
    exact ⟨p.1, p.2, t, by rw [heq]; rfl, hlk, heq,
      get_ok_of_lookup c' p.1 p.2 hlk herr⟩
  · rcases list_ok_inv env days fname cache c' f2 tot2 sums h with
      ⟨folder, hfold, hconn, hdv, hproc, _, _⟩
    have hcorr := processList_corr (env.now - days) folder.items 1 c' sums hproc
    have hpw := processList_pairwise (env.now - days) folder.items 1
    rw [hproc] at hpw
    intro s hs
    rcases forall2_exists_left hcorr s hs with ⟨p, hp, t, hrt, hlt, heqerr⟩
    rcases heqerr with ⟨herr, heq⟩
    have hlk : cacheLookup c' p.1 = some p.2 :=
      cacheLookup_eq_of_pairwise c' p.1 p.2 hpw hp
    exact ⟨p.1, p.2, t, by rw [heq]; rfl, hlk, heq,
      get_ok_of_lookup c' p.1 p.2 hlk herr⟩

/-- Witness for `summary_id_is_cache_key` at a concrete search call. -/
theorem summary_id_is_cache_key_witness :
    ∃ (k : Int) (item : EmailItem) (t : Int),
      (mkSummary 2 itemB 99).id = toString k ∧ cacheLookup [(2, itemB)] k = some item ∧
      mkSummary 2 itemB 99 = mkSummary k item t ∧
      outlook_get_email_by_number [(2, itemB)] k = GetResult.ok (mkDetail item) := by
  have h := summary_id_is_cache_key env0 "report" 7 none [] [(2, itemB)]
    "Inbox" "report" "X" 1 0 [mkSummary 2 itemB 99] (Or.inl (by decide))
  exact h (mkSummary 2 itemB 99) (by decide)
